import Mathlib

/-!
Shallow embedding of NuttX `mm/circ_buf/circ_buf.c` and
`mm/iob/iob_get_queue_size.c`.

Modelling conventions:
* `struct circ_buf_s` becomes the structure `circ_buf_s`; the byte storage
  `base` is a `List Nat` (one element per byte), `size`, `head`, `tail` are
  `Nat` (the cursors grow monotonically; `size_t` counter wraparound after
  2^64 bytes is documented by the code's design notes as out of scope).
* a `FAR struct circ_buf_s *` argument is `Option circ_buf_s`
  (`none` = NULL); likewise `FAR void *` byte pointers are
  `Option (List Nat)`.
* every C function that can reach the unguarded `cursor % circ->size`
  with `circ->size == 0` (division by zero, undefined behavior in C)
  returns the distinguished value `CircRet.ub` in that case; otherwise it
  returns `CircRet.ret v st` where `v` is the C return value and `st` the
  state of the buffer (and, where relevant, of the destination) after the
  call.  An early `return -EINVAL` leaves the buffer untouched, so the
  returned state is the argument itself.
* `kmm_malloc` is modelled by an explicit `alloc : Option (List Nat)`
  parameter: `none` is allocation failure, `some blk` a fresh block.
* `size_t` subtraction in `circ_buf_used`/`circ_buf_space` is modelled by
  truncated `Nat` subtraction; the two agree on every state satisfying the
  buffer invariant (`tail ≤ head` and `head - tail ≤ size`).
-/

def EINVAL : Int := 22

def ENOMEM : Int := 12

/-- `struct circ_buf_s`: storage block, its size, the two monotone cursors
and the borrowed-storage flag (`circ->external`). -/
structure circ_buf_s where
  base : List Nat
  size : Nat
  head : Nat
  tail : Nat
  external : Bool
deriving Repr, DecidableEq

/-- Outcome of a C call: a returned value together with the state of the
mutated arguments, or undefined behavior (`% 0`). -/
inductive CircRet (α : Type) where
  | ret (val : Int) (out : α)
  | ub
deriving Repr, DecidableEq

/-- `memcpy(base + off, d, d.length)` inside a block `base`. -/
def listWrite (base : List Nat) (off : Nat) (d : List Nat) : List Nat :=
  base.take off ++ d ++ base.drop (off + d.length)

/-- `circ_buf_size`: `circ ? circ->size : 0`. -/
def circ_buf_size : Option circ_buf_s → Nat
  | some c => c.size
  | none => 0

/-- `circ_buf_used`: `circ ? circ->head - circ->tail : 0`. -/
def circ_buf_used : Option circ_buf_s → Nat
  | some c => c.head - c.tail
  | none => 0

/-- `circ_buf_space`: `circ_buf_size(circ) - circ_buf_used(circ)`. -/
def circ_buf_space (circ : Option circ_buf_s) : Nat :=
  circ_buf_size circ - circ_buf_used circ

/-- `circ_buf_is_empty`: `!circ_buf_used(circ)`. -/
def circ_buf_is_empty (circ : Option circ_buf_s) : Bool :=
  circ_buf_used circ == 0

/-- `circ_buf_is_full`: `!circ_buf_space(circ)`. -/
def circ_buf_is_full (circ : Option circ_buf_s) : Bool :=
  circ_buf_space circ == 0

/-- The bytes that `circ_buf_peek` copies out: clamp the request to the
occupancy, then read at most two contiguous segments starting at the
physical offset `tail % size`. -/
def peekData (c : circ_buf_s) (bytes : Nat) : List Nat :=
  let off := c.tail % c.size
  let b := min bytes (c.head - c.tail)
  let seg1 := min b (c.size - off)
  (c.base.drop off).take seg1 ++ c.base.take (b - seg1)

/-- `circ_buf_peek`.  The C code computes `circ->tail % circ->size`
unguarded, so a zero-capacity buffer is undefined behavior.  `dst` is not
checked for NULL; the state of the buffer is returned unchanged (the C
function never assigns to `circ`). -/
def circ_buf_peek (circ : Option circ_buf_s) (dst : Option (List Nat))
    (bytes : Nat) : CircRet (Option circ_buf_s × Option (List Nat)) :=
  match circ with
  | none => .ret (-EINVAL) (none, dst)
  | some c =>
    if c.size = 0 then .ub
    else
      let b := min bytes (c.head - c.tail)
      .ret (b : Int) (some c, dst.map fun d => peekData c bytes ++ d.drop b)

/-- `circ_buf_read`: `peek` then `circ->tail += bytes`. -/
def circ_buf_read (circ : Option circ_buf_s) (dst : Option (List Nat))
    (bytes : Nat) : CircRet (Option circ_buf_s × Option (List Nat)) :=
  match circ, dst with
  | none, _ => .ret (-EINVAL) (circ, dst)
  | some _, none => .ret (-EINVAL) (circ, dst)
  | some c, some d =>
    match circ_buf_peek (some c) (some d) bytes with
    | .ub => .ub
    | .ret n (st, dstOut) =>
      .ret n (st.map fun c1 => { c1 with tail := c1.tail + n.toNat }, dstOut)

/-- `circ_buf_skip`: advance `tail` by `min bytes used`. -/
def circ_buf_skip (circ : Option circ_buf_s) (bytes : Nat) :
    CircRet (Option circ_buf_s) :=
  match circ with
  | none => .ret (-EINVAL) none
  | some c =>
    let b := min bytes (c.head - c.tail)
    .ret (b : Int) (some { c with tail := c.tail + b })

/-- `circ_buf_write`: clamp to free space, copy in at most two segments at
`head % size`, advance `head`.  Zero capacity reaches `% 0`: undefined. -/
def circ_buf_write (circ : Option circ_buf_s) (src : Option (List Nat))
    (bytes : Nat) : CircRet (Option circ_buf_s) :=
  match circ, src with
  | none, _ => .ret (-EINVAL) circ
  | some _, none => .ret (-EINVAL) circ
  | some c, some s =>
    if c.size = 0 then .ub
    else
      let off := c.head % c.size
      let b := min bytes (circ_buf_space (some c))
      let seg1 := min b (c.size - off)
      let base1 := listWrite c.base off (s.take seg1)
      let base2 := listWrite base1 0 ((s.drop seg1).take (b - seg1))
      .ret (b : Int) (some { c with base := base2, head := c.head + b })

/-- `circ_buf_overwrite`: truncate the source to the newest `size` bytes,
compute the eviction amount, copy as in `write`, advance `head` by the
truncated count and `tail` by the eviction amount; return the eviction
amount.  Zero capacity reaches `% 0`: undefined. -/
def circ_buf_overwrite (circ : Option circ_buf_s) (src : Option (List Nat))
    (bytes : Nat) : CircRet (Option circ_buf_s) :=
  match circ, src with
  | none, _ => .ret (-EINVAL) circ
  | some _, none => .ret (-EINVAL) circ
  | some c, some s =>
    let s1 := if bytes > c.size then s.drop (bytes - c.size) else s
    let b := min bytes c.size
    let ov := b - circ_buf_space (some c)
    if c.size = 0 then .ub
    else
      let off := c.head % c.size
      let seg1 := min b (c.size - off)
      let base1 := listWrite c.base off (s1.take seg1)
      let base2 := listWrite base1 0 ((s1.drop seg1).take (b - seg1))
      .ret (ov : Int)
        (some { c with base := base2, head := c.head + b, tail := c.tail + ov })

/-- `circ_buf_reset`: `circ->head = circ->tail = 0` (no-op on NULL). -/
def circ_buf_reset (circ : Option circ_buf_s) : Option circ_buf_s :=
  circ.map fun c => { c with head := 0, tail := 0 }

/-- `circ_buf_init`.  `circNull` models a NULL `circ` argument; `alloc`
models the `kmm_malloc(bytes)` outcome (consulted only when no base is
supplied and `bytes` is nonzero). -/
def circ_buf_init (circNull : Bool) (base : Option (List Nat)) (bytes : Nat)
    (alloc : Option (List Nat)) : CircRet (Option circ_buf_s) :=
  if circNull then .ret (-EINVAL) none
  else if base.isSome && bytes == 0 then .ret (-EINVAL) none
  else
    match base with
    | some bl =>
      .ret 0 (some { base := bl, size := bytes, head := 0, tail := 0, external := true })
    | none =>
      if bytes ≠ 0 then
        match alloc with
        | none => .ret (-ENOMEM) none
        | some blk =>
          .ret 0 (some { base := blk, size := bytes, head := 0, tail := 0, external := false })
      else
        .ret 0 (some { base := [], size := bytes, head := 0, tail := 0, external := false })

/-- `circ_buf_resize`: reject borrowed storage, allocate, drop the oldest
excess via `circ_buf_skip`, copy the survivors via `circ_buf_read` into the
new block, install it with `tail = 0`, `head = len`. -/
def circ_buf_resize (alloc : Option (List Nat)) (circ : Option circ_buf_s)
    (bytes : Nat) : CircRet (Option circ_buf_s) :=
  match circ with
  | none => .ret (-EINVAL) none
  | some c =>
    if c.external then .ret (-EINVAL) (some c)
    else
      match alloc with
      | none => .ret (-ENOMEM) (some c)
      | some tmp =>
        let len := circ_buf_used (some c)
        let step : Option circ_buf_s × Nat :=
          if bytes < len then
            match circ_buf_skip (some c) (len - bytes) with
            | .ret _ st => (st, bytes)
            | .ub => (none, bytes)
          else (some c, len)
        match circ_buf_read step.1 (some tmp) step.2 with
        | .ub => .ub
        | .ret _ (st2, dstOut) =>
          .ret 0 (st2.map fun c2 =>
            { base := dstOut.getD tmp, size := bytes, head := step.2,
              tail := 0, external := c2.external })

/-- The resident bytes of a buffer, oldest first: what a full-occupancy
peek copies out. -/
def circ_contents (c : circ_buf_s) : List Nat := peekData c (c.head - c.tail)

/-- Structural well-formedness of a buffer state: the cursors are ordered,
occupancy is bounded by capacity, and the storage block has exactly
`size` bytes. -/
def circWF (c : circ_buf_s) : Prop :=
  c.tail ≤ c.head ∧ c.head - c.tail ≤ c.size ∧ c.base.length = c.size

instance (c : circ_buf_s) : Decidable (circWF c) := by
  unfold circWF; infer_instance

/-- States reachable through the public interface from a successful
`circ_buf_init` by peek/read/skip/write/overwrite/reset and successful
resize.  The length side conditions on `base`/`alloc` state the memory
contract that a supplied or malloc'd block really has `bytes` bytes. -/
inductive Reachable : circ_buf_s → Prop where
  | init : ∀ base bytes alloc c,
      (∀ bl, base = some bl → bl.length = bytes) →
      (∀ a, alloc = some a → a.length = bytes) →
      circ_buf_init false base bytes alloc = .ret 0 (some c) → Reachable c
  | peek : ∀ c dst bytes r c2 dst', Reachable c →
      circ_buf_peek (some c) dst bytes = .ret r (some c2, dst') → Reachable c2
  | read : ∀ c dst bytes r c2 dst', Reachable c →
      circ_buf_read (some c) (some dst) bytes = .ret r (some c2, dst') →
      Reachable c2
  | skip : ∀ c bytes r c2, Reachable c →
      circ_buf_skip (some c) bytes = .ret r (some c2) → Reachable c2
  | write : ∀ c src bytes r c2, Reachable c →
      circ_buf_write (some c) (some src) bytes = .ret r (some c2) →
      Reachable c2
  | overwrite : ∀ c src bytes r c2, Reachable c →
      circ_buf_overwrite (some c) (some src) bytes = .ret r (some c2) →
      Reachable c2
  | reset : ∀ c c2, Reachable c →
      circ_buf_reset (some c) = some c2 → Reachable c2
  | resize : ∀ c alloc bytes c2, Reachable c →
      (∀ a, alloc = some a → a.length = bytes) →
      circ_buf_resize alloc (some c) bytes = .ret 0 (some c2) → Reachable c2

/-- `struct iob_s`: only the per-segment length is relevant here; the
`io_flink` chain is the enclosing list. -/
structure iob_s where
  io_len : Nat
deriving Repr, DecidableEq

/-- `struct iob_qentry_s`: one queue entry holding a chain of segments. -/
structure iob_qentry_s where
  qe_head : List iob_s
deriving Repr, DecidableEq

/-- `struct iob_queue_s`: `qh_head` chain of queue entries. -/
structure iob_queue_s where
  qh_head : List iob_qentry_s
deriving Repr, DecidableEq

/-- Inner loop of `iob_get_queue_size`: `total += iob->io_len` along one
chain. -/
def iob_chain_total : List iob_s → Nat → Nat
  | [], total => total
  | iob :: rest, total => iob_chain_total rest (total + iob.io_len)

/-- Outer loop of `iob_get_queue_size` over the queue entries. -/
def iob_queue_total : List iob_qentry_s → Nat → Nat
  | [], total => total
  | q :: rest, total => iob_queue_total rest (iob_chain_total q.qe_head total)

/-- `iob_get_queue_size`. -/
def iob_get_queue_size (queue : iob_queue_s) : Nat :=
  iob_queue_total queue.qh_head 0

/-- Storage rotated so that physical offset `k` comes first. -/
def rotAt (l : List Nat) (k : Nat) : List Nat := l.drop k ++ l.take k

lemma listWrite_length (l d : List Nat) (off : Nat) (h : off + d.length ≤ l.length) :
    (listWrite l off d).length = l.length := by
  simp [listWrite]
  omega

lemma listWrite_nil (l : List Nat) (off : Nat) : listWrite l off [] = l := by
  simp [listWrite]

lemma rotAt_length (l : List Nat) (k : Nat) : (rotAt l k).length = l.length := by
  simp [rotAt]
  omega

lemma peekData_eq_rot (c : circ_buf_s) (bytes : Nat) (hlen : c.base.length = c.size)
    (h0 : 0 < c.size) (hu : c.head - c.tail ≤ c.size) :
    peekData c bytes
      = (rotAt c.base (c.tail % c.size)).take (min bytes (c.head - c.tail)) := by
  have hoff : c.tail % c.size < c.size := Nat.mod_lt _ h0
  have hb : min bytes (c.head - c.tail) ≤ c.size :=
    le_trans (Nat.min_le_right _ _) hu
  simp only [peekData, rotAt]
  set off := c.tail % c.size
  set b := min bytes (c.head - c.tail) with hbdef
  have hdl : (c.base.drop off).length = c.size - off := by simp [hlen]
  rw [List.take_append_eq_append_take, hdl]
  rcases le_or_lt b (c.size - off) with h | h
  · rw [Nat.min_eq_left h, Nat.sub_eq_zero_of_le h]
    simp
  · rw [Nat.min_eq_right (Nat.le_of_lt h)]
    congr 1
    · rw [List.take_of_length_le (by omega), List.take_of_length_le (by omega)]
    · rw [List.take_take, Nat.min_eq_left (by omega)]

lemma contents_eq_rot (c : circ_buf_s) (hlen : c.base.length = c.size)
    (h0 : 0 < c.size) (hu : c.head - c.tail ≤ c.size) :
    circ_contents c = (rotAt c.base (c.tail % c.size)).take (c.head - c.tail) := by
  rw [circ_contents, peekData_eq_rot c _ hlen h0 hu, Nat.min_self]

lemma contents_length (c : circ_buf_s) (hlen : c.base.length = c.size)
    (h0 : 0 < c.size) (hu : c.head - c.tail ≤ c.size) :
    (circ_contents c).length = c.head - c.tail := by
  rw [contents_eq_rot c hlen h0 hu]
  simp [rotAt_length, hlen]
  omega

lemma peekData_eq_take_contents (c : circ_buf_s) (bytes : Nat)
    (hlen : c.base.length = c.size) (h0 : 0 < c.size)
    (hu : c.head - c.tail ≤ c.size) :
    peekData c bytes = (circ_contents c).take bytes := by
  rw [peekData_eq_rot c _ hlen h0 hu, contents_eq_rot c hlen h0 hu,
    List.take_take, Nat.min_comm]

lemma rotAt_zero (l : List Nat) : rotAt l 0 = l := by
  simp [rotAt]

set_option maxHeartbeats 2000000 in
lemma write_rot_nowrap (B s : List Nat) (S toff woff k b : Nat)
    (hS : B.length = S) (ht : toff < S) (hw : woff < S)
    (hwoff : woff = toff + k ∨ woff = toff + k - S ∧ S ≤ toff + k)
    (hkb : k + b ≤ S) (hbs : b ≤ s.length) (hnw : b ≤ S - woff) :
    rotAt (listWrite B woff (s.take b)) toff
      = (rotAt B toff).take k ++ s.take b ++ (rotAt B toff).drop (k + b) := by
  apply List.ext_getElem?
  intro i
  simp only [rotAt, listWrite, List.getElem?_append, List.getElem?_take,
    List.getElem?_drop, List.length_append, List.length_take, List.length_drop,
    Nat.add_zero, Nat.zero_add]
  split_ifs <;>
    first
      | (exfalso; omega)
      | rfl
      | (congr 1; omega)

set_option maxHeartbeats 4000000 in
lemma write_rot_wrap (B s : List Nat) (S toff k b : Nat)
    (hS : B.length = S) (ht : toff < S) (hw : toff + k < S)
    (hkb : k + b ≤ S) (hbs : b ≤ s.length) (hwr : S - (toff + k) < b) :
    rotAt (listWrite (listWrite B (toff + k) (s.take (S - (toff + k)))) 0
             ((s.drop (S - (toff + k))).take (b - (S - (toff + k))))) toff
      = (rotAt B toff).take k ++ s.take b ++ (rotAt B toff).drop (k + b) := by
  apply List.ext_getElem?
  intro i
  simp only [rotAt, listWrite, List.getElem?_append, List.getElem?_take,
    List.getElem?_drop, List.length_append, List.length_take, List.length_drop,
    Nat.add_zero, Nat.zero_add]
  split_ifs <;>
    first
      | (exfalso; omega)
      | rfl
      | (congr 1; omega)

/-- Effect, in the view rotated to physical offset `toff`, of the two-part
`memcpy` that `circ_buf_write`/`circ_buf_overwrite` perform at physical
offset `woff`, when the written region does not cross `toff`
(`k` is the rotated coordinate of `woff`; `k + b ≤ S`). -/
lemma write_rot (B s : List Nat) (S toff woff k b : Nat)
    (hS : B.length = S) (ht : toff < S) (hw : woff < S)
    (hk : woff = (toff + k) % S) (hkb : k + b ≤ S) (hbs : b ≤ s.length) :
    rotAt (listWrite (listWrite B woff (s.take (min b (S - woff)))) 0
             ((s.drop (min b (S - woff))).take (b - min b (S - woff)))) toff
      = (rotAt B toff).take k ++ s.take b ++ (rotAt B toff).drop (k + b) := by
  rcases le_or_lt b (S - woff) with hnw | hwr
  · rw [Nat.min_eq_left hnw, Nat.sub_self, List.take_zero, listWrite_nil]
    rcases lt_or_ge (toff + k) S with hc | hc
    · exact write_rot_nowrap B s S toff woff k b hS ht hw
        (Or.inl (by rw [hk, Nat.mod_eq_of_lt hc])) hkb hbs hnw
    · exact write_rot_nowrap B s S toff woff k b hS ht hw
        (Or.inr ⟨by rw [hk, Nat.mod_eq_sub_mod hc, Nat.mod_eq_of_lt (by omega)], hc⟩)
        hkb hbs hnw
  · have hc : toff + k < S := by
      by_contra hge
      push_neg at hge
      have hx : woff = toff + k - S := by
        rw [hk, Nat.mod_eq_sub_mod hge, Nat.mod_eq_of_lt (by omega)]
      omega
    have hwoff : woff = toff + k := by rw [hk, Nat.mod_eq_of_lt hc]
    subst hwoff
    rw [Nat.min_eq_right (le_of_lt hwr)]
    exact write_rot_wrap B s S toff k b hS ht hc hkb hbs hwr

set_option maxHeartbeats 1000000 in
lemma rotAt_shift_cases (B : List Nat) (S off off2 j m : Nat) (hS : B.length = S)
    (hoff : off < S) (h2 : off2 < S) (hjm : j + m ≤ S)
    (hcase : off2 = off + j ∨ off2 = off + j - S ∧ S ≤ off + j) :
    (rotAt B off2).take m = ((rotAt B off).drop j).take m := by
  apply List.ext_getElem?
  intro i
  simp only [rotAt, List.getElem?_append, List.getElem?_take, List.getElem?_drop,
    List.length_append, List.length_take, List.length_drop]
  split_ifs <;>
    first
      | (exfalso; omega)
      | rfl
      | (congr 1; omega)

/-- Advancing the logical offset by `j` shifts the rotated view by `j`. -/
lemma rotAt_shift (B : List Nat) (S t j m : Nat) (hS : B.length = S) (h0 : 0 < S)
    (hjm : j + m ≤ S) :
    (rotAt B ((t + j) % S)).take m = ((rotAt B (t % S)).drop j).take m := by
  have h1 : (t + j) % S = (t % S + j) % S := by
    conv_lhs => rw [← Nat.mod_add_div t S]
    rw [Nat.add_right_comm, Nat.add_mul_mod_self_left]
  have hofflt : t % S < S := Nat.mod_lt _ h0
  rcases lt_or_ge (t % S + j) S with hc | hc
  · rw [h1, Nat.mod_eq_of_lt hc]
    exact rotAt_shift_cases B S (t % S) (t % S + j) j m hS hofflt hc hjm (Or.inl rfl)
  · rw [h1, Nat.mod_eq_sub_mod hc, Nat.mod_eq_of_lt (by omega)]
    exact rotAt_shift_cases B S (t % S) (t % S + j - S) j m hS hofflt (by omega) hjm
      (Or.inr ⟨rfl, hc⟩)

lemma contents_of_empty (c : circ_buf_s) (h : c.head - c.tail = 0) :
    circ_contents c = [] := by
  simp [circ_contents, peekData, h]


lemma contents_advance_tail (c : circ_buf_s) (j : Nat) (hwf : circWF c)
    (h0 : 0 < c.size) (hj : j ≤ c.head - c.tail) :
    circ_contents { c with tail := c.tail + j } = (circ_contents c).drop j := by
  obtain ⟨hc1, hc2, hc3⟩ := hwf
  rw [contents_eq_rot { c with tail := c.tail + j } (by exact hc3) (by exact h0)
    (by show c.head - (c.tail + j) ≤ c.size; omega)]
  show (rotAt c.base ((c.tail + j) % c.size)).take (c.head - (c.tail + j)) = _
  have he : c.head - (c.tail + j) = c.head - c.tail - j := by omega
  rw [he, rotAt_shift c.base c.size c.tail j _ hc3 h0 (by omega)]
  rw [contents_eq_rot c hc3 h0 hc2, List.drop_take]

lemma skip_spec (c : circ_buf_s) (bytes : Nat) :
    circ_buf_skip (some c) bytes
      = .ret ((min bytes (c.head - c.tail) : Nat) : Int)
          (some { c with tail := c.tail + min bytes (c.head - c.tail) }) := rfl

lemma read_spec (c : circ_buf_s) (d : List Nat) (bytes : Nat)
    (hwf : circWF c) (h0 : 0 < c.size) :
    circ_buf_read (some c) (some d) bytes
      = .ret ((min bytes (c.head - c.tail) : Nat) : Int)
          (some { c with tail := c.tail + min bytes (c.head - c.tail) },
           some ((circ_contents c).take bytes ++ d.drop (min bytes (c.head - c.tail)))) := by
  obtain ⟨hc1, hc2, hc3⟩ := hwf
  simp only [circ_buf_read, circ_buf_peek]
  rw [if_neg (by omega)]
  simp only [Option.map_some', Int.toNat_natCast]
  rw [peekData_eq_take_contents c bytes hc3 h0 hc2]

/-- Contents after the two-segment copy of `b` fresh bytes `d` at the write
offset, combined with advancing `tail` by `ov`: the surviving old bytes
followed by `d`.  `B2` is the storage after the copy, characterized by
`hrot` in the view rotated to the new read offset. -/
lemma contents_after_wrcopy (c : circ_buf_s) (B2 d : List Nat) (b ov : Nat)
    (hc1 : c.tail ≤ c.head) (hc2 : c.head - c.tail ≤ c.size)
    (hc3 : c.base.length = c.size) (h0 : 0 < c.size)
    (hlen2 : B2.length = c.size) (hov : ov ≤ c.head - c.tail)
    (hb : c.head - c.tail - ov + b ≤ c.size) (hd : d.length = b)
    (hrot : rotAt B2 ((c.tail + ov) % c.size)
      = (rotAt c.base ((c.tail + ov) % c.size)).take (c.head - c.tail - ov) ++ d
          ++ (rotAt c.base ((c.tail + ov) % c.size)).drop
              (c.head - c.tail - ov + b)) :
    circ_contents { c with base := B2, head := c.head + b, tail := c.tail + ov }
      = (circ_contents c).drop ov ++ d := by
  rw [contents_eq_rot { c with base := B2, head := c.head + b, tail := c.tail + ov }
    (by exact hlen2) (by exact h0)
    (by show c.head + b - (c.tail + ov) ≤ c.size; omega)]
  show (rotAt B2 ((c.tail + ov) % c.size)).take (c.head + b - (c.tail + ov)) = _
  rw [hrot]
  have he : c.head + b - (c.tail + ov) = c.head - c.tail - ov + b := by omega
  rw [he]
  rw [List.take_append_of_le_length (by
      simp [rotAt_length, List.length_take, List.length_append, hc3, hd]
      omega)]
  rw [List.take_of_length_le (by
      simp [rotAt_length, List.length_take, List.length_append, hc3, hd]
      try omega)]
  congr 1
  rw [rotAt_shift c.base c.size c.tail ov (c.head - c.tail - ov) hc3 h0 (by omega)]
  rw [contents_eq_rot c hc3 h0 hc2, List.drop_take]

lemma write_spec (c : circ_buf_s) (s : List Nat) (bytes : Nat)
    (hwf : circWF c) (h0 : 0 < c.size) (hbs : bytes ≤ s.length) :
    ∃ c2, circ_buf_write (some c) (some s) bytes
        = .ret ((min bytes (circ_buf_space (some c)) : Nat) : Int) (some c2)
      ∧ c2.size = c.size ∧ c2.tail = c.tail ∧ c2.external = c.external
      ∧ c2.head = c.head + min bytes (circ_buf_space (some c))
      ∧ c2.base.length = c.size
      ∧ circ_contents c2
          = circ_contents c ++ s.take (min bytes (circ_buf_space (some c))) := by
  obtain ⟨hc1, hc2, hc3⟩ := hwf
  have hsp : circ_buf_space (some c) = c.size - (c.head - c.tail) := rfl
  set b := min bytes (circ_buf_space (some c)) with hbdef
  have hbsp : b ≤ c.size - (c.head - c.tail) := by
    rw [hbdef, hsp]
    exact Nat.min_le_right _ _
  have hoffw : c.head % c.size < c.size := Nat.mod_lt _ h0
  have hofft : c.tail % c.size < c.size := Nat.mod_lt _ h0
  have hbs' : b ≤ s.length := le_trans (Nat.min_le_left _ _) hbs
  have heq : circ_buf_write (some c) (some s) bytes
      = .ret (b : Int) (some { c with
          base := listWrite (listWrite c.base (c.head % c.size)
                    (s.take (min b (c.size - c.head % c.size)))) 0
                    ((s.drop (min b (c.size - c.head % c.size))).take
                      (b - min b (c.size - c.head % c.size))),
          head := c.head + b }) := by
    simp only [circ_buf_write]
    rw [if_neg (by omega)]
  have hinner : (listWrite c.base (c.head % c.size)
      (s.take (min b (c.size - c.head % c.size)))).length = c.size := by
    rw [listWrite_length _ _ _ (by simp [List.length_take, hc3]; omega)]
    exact hc3
  have houter : (listWrite (listWrite c.base (c.head % c.size)
      (s.take (min b (c.size - c.head % c.size)))) 0
      ((s.drop (min b (c.size - c.head % c.size))).take
        (b - min b (c.size - c.head % c.size)))).length = c.size := by
    rw [listWrite_length _ _ _ (by
      rw [hinner]
      simp [List.length_take, List.length_drop]
      omega)]
    exact hinner
  have hk : c.head % c.size
      = ((c.tail + 0) % c.size + (c.head - c.tail - 0)) % c.size := by
    rw [Nat.mod_add_mod]
    congr 1
    omega
  have hrot := write_rot c.base s c.size ((c.tail + 0) % c.size) (c.head % c.size)
    (c.head - c.tail - 0) b hc3 (by rw [Nat.add_zero]; exact hofft) hoffw hk
    (by omega) hbs'
  have hcont := contents_after_wrcopy c _ (s.take b) b 0 hc1 hc2 hc3 h0 houter
    (by omega) (by omega) (by simp [List.length_take]; omega) hrot
  simp only [Nat.add_zero, List.drop_zero] at hcont
  exact ⟨_, heq, rfl, rfl, rfl, rfl, houter, hcont⟩

lemma overwrite_spec (c : circ_buf_s) (s : List Nat) (bytes : Nat)
    (hwf : circWF c) (h0 : 0 < c.size) (hs : s.length = bytes) :
    ∃ c2, circ_buf_overwrite (some c) (some s) bytes
        = .ret ((min bytes c.size - circ_buf_space (some c) : Nat) : Int) (some c2)
      ∧ c2.size = c.size ∧ c2.external = c.external
      ∧ c2.head = c.head + min bytes c.size
      ∧ c2.tail = c.tail + (min bytes c.size - circ_buf_space (some c))
      ∧ c2.base.length = c.size
      ∧ circ_contents c2
          = (circ_contents c).drop (min bytes c.size - circ_buf_space (some c))
              ++ (if bytes > c.size then s.drop (bytes - c.size) else s) := by
  obtain ⟨hc1, hc2, hc3⟩ := hwf
  have hsp : circ_buf_space (some c) = c.size - (c.head - c.tail) := rfl
  set s1 := if bytes > c.size then s.drop (bytes - c.size) else s with hs1def
  set b := min bytes c.size with hbdef
  set ov := b - circ_buf_space (some c) with hovdef
  have hs1len : s1.length = b := by
    rw [hs1def, hbdef]
    split_ifs with h
    · simp [List.length_drop, hs]
      omega
    · rw [hs]
      omega
  have hov : ov ≤ c.head - c.tail := by
    rw [hovdef, hsp, hbdef]
    omega
  have hoffw : c.head % c.size < c.size := Nat.mod_lt _ h0
  have heq : circ_buf_overwrite (some c) (some s) bytes
      = .ret (ov : Int) (some { c with
          base := listWrite (listWrite c.base (c.head % c.size)
                    (s1.take (min b (c.size - c.head % c.size)))) 0
                    ((s1.drop (min b (c.size - c.head % c.size))).take
                      (b - min b (c.size - c.head % c.size))),
          head := c.head + b, tail := c.tail + ov }) := by
    simp only [circ_buf_overwrite]
    rw [if_neg (by omega)]
  have hinner : (listWrite c.base (c.head % c.size)
      (s1.take (min b (c.size - c.head % c.size)))).length = c.size := by
    rw [listWrite_length _ _ _ (by simp [List.length_take, hc3]; omega)]
    exact hc3
  have houter : (listWrite (listWrite c.base (c.head % c.size)
      (s1.take (min b (c.size - c.head % c.size)))) 0
      ((s1.drop (min b (c.size - c.head % c.size))).take
        (b - min b (c.size - c.head % c.size)))).length = c.size := by
    rw [listWrite_length _ _ _ (by
      rw [hinner]
      simp [List.length_take, List.length_drop]
      omega)]
    exact hinner
  have hk : c.head % c.size
      = ((c.tail + ov) % c.size + (c.head - c.tail - ov)) % c.size := by
    rw [Nat.mod_add_mod]
    congr 1
    omega
  have hrot := write_rot c.base s1 c.size ((c.tail + ov) % c.size) (c.head % c.size)
    (c.head - c.tail - ov) b hc3 (Nat.mod_lt _ h0) hoffw hk
    (by rw [hsp] at hovdef; omega) (by rw [hs1len])
  have hcont := contents_after_wrcopy c _ (s1.take b) b ov hc1 hc2 hc3 h0 houter
    hov (by rw [hsp] at hovdef; omega) (by simp [List.length_take, hs1len]) hrot
  rw [List.take_of_length_le (le_of_eq hs1len)] at hcont
  exact ⟨_, heq, rfl, rfl, rfl, rfl, houter, hcont⟩

lemma contents_flat (D : List Nat) (S m : Nat) (e : Bool) (hm : m ≤ S)
    (hD : D.length = S) :
    circ_contents { base := D, size := S, head := m, tail := 0, external := e }
      = D.take m := by
  by_cases h0 : S = 0
  · subst h0
    have hD' : D = [] := List.eq_nil_of_length_eq_zero hD
    have hm' : m = 0 := Nat.le_zero.mp hm
    subst hD'
    subst hm'
    simp [circ_contents, peekData]
  · rw [contents_eq_rot { base := D, size := S, head := m, tail := 0, external := e }
      (by exact hD) (Nat.pos_of_ne_zero h0) (by show m - 0 ≤ S; omega)]
    show (rotAt D (0 % S)).take (m - 0) = D.take m
    rw [Nat.zero_mod, rotAt_zero, Nat.sub_zero]

lemma resize_spec (c : circ_buf_s) (tmp : List Nat) (bytes : Nat)
    (hwf : circWF c) (hx : c.external = false) (h0 : 0 < c.size)
    (ht : tmp.length = bytes) :
    ∃ c2, circ_buf_resize (some tmp) (some c) bytes = .ret 0 (some c2)
      ∧ c2.size = bytes ∧ c2.tail = 0 ∧ c2.external = c.external
      ∧ c2.head = min (c.head - c.tail) bytes
      ∧ c2.base.length = bytes
      ∧ circ_contents c2 = (circ_contents c).drop (c.head - c.tail - bytes) := by
  obtain ⟨hc1, hc2, hc3⟩ := hwf
  simp only [circ_buf_resize, circ_buf_used]
  rw [if_neg (by rw [hx]; exact Bool.false_ne_true)]
  by_cases hshrink : bytes < c.head - c.tail
  · rw [if_pos hshrink, skip_spec]
    dsimp only
    rw [read_spec { c with tail := c.tail + min (c.head - c.tail - bytes) (c.head - c.tail) }
      tmp bytes
      ⟨by show c.tail + min (c.head - c.tail - bytes) (c.head - c.tail) ≤ c.head; omega,
       by show c.head - (c.tail + min (c.head - c.tail - bytes) (c.head - c.tail)) ≤ c.size
          omega,
       hc3⟩ h0]
    dsimp only
    simp only [Option.getD_some]
    have hA : c.head - (c.tail + min (c.head - c.tail - bytes) (c.head - c.tail)) = bytes := by
      omega
    rw [hA, Nat.min_self]
    rw [contents_advance_tail c (min (c.head - c.tail - bytes) (c.head - c.tail))
      ⟨hc1, hc2, hc3⟩ h0 (by omega)]
    rw [Nat.min_eq_left (Nat.sub_le _ _)]
    have htmp : tmp.drop bytes = [] := List.drop_eq_nil_of_le (le_of_eq ht)
    rw [htmp, List.append_nil]
    rw [List.take_of_length_le (by
      rw [List.length_drop, contents_length c hc3 h0 hc2]
      omega)]
    refine ⟨_, rfl, rfl, rfl, rfl, ?_, ?_, ?_⟩
    · show bytes = min (c.head - c.tail) bytes
      omega
    · show ((circ_contents c).drop (c.head - c.tail - bytes)).length = bytes
      rw [List.length_drop, contents_length c hc3 h0 hc2]
      omega
    · rw [contents_flat _ bytes bytes c.external (le_refl _) (by
        rw [List.length_drop, contents_length c hc3 h0 hc2]
        omega)]
      exact List.take_of_length_le (by
        rw [List.length_drop, contents_length c hc3 h0 hc2]
        omega)
  · rw [if_neg hshrink]
    dsimp only
    rw [read_spec c tmp (c.head - c.tail) ⟨hc1, hc2, hc3⟩ h0]
    rw [Nat.min_self]
    dsimp only
    simp only [Option.getD_some]
    rw [List.take_of_length_le (le_of_eq (contents_length c hc3 h0 hc2))]
    refine ⟨_, rfl, rfl, rfl, rfl, ?_, ?_, ?_⟩
    · show c.head - c.tail = min (c.head - c.tail) bytes
      omega
    · show (circ_contents c ++ tmp.drop (c.head - c.tail)).length = bytes
      rw [List.length_append, List.length_drop, contents_length c hc3 h0 hc2]
      omega
    · rw [contents_flat _ bytes (c.head - c.tail) c.external (by omega) (by
        rw [List.length_append, List.length_drop, contents_length c hc3 h0 hc2]
        omega)]
      have hz : c.head - c.tail - bytes = 0 := by omega
      rw [hz, List.drop_zero]
      rw [List.take_append_of_le_length (by
        rw [contents_length c hc3 h0 hc2])]
      exact List.take_of_length_le (le_of_eq (contents_length c hc3 h0 hc2))

lemma resize_ub_of_size_zero (c : circ_buf_s) (tmp : List Nat) (bytes : Nat)
    (hx : c.external = false) (hu0 : c.head - c.tail = 0) (hsz : c.size = 0) :
    circ_buf_resize (some tmp) (some c) bytes = .ub := by
  simp only [circ_buf_resize, circ_buf_used]
  rw [if_neg (by rw [hx]; exact Bool.false_ne_true)]
  rw [if_neg (by omega)]
  dsimp only
  simp only [circ_buf_read, circ_buf_peek]
  rw [if_pos hsz]

lemma resize_success_inv (c c2 : circ_buf_s) (alloc : Option (List Nat)) (bytes : Nat)
    (hwf : circWF c) (halloc : ∀ t, alloc = some t → t.length = bytes)
    (h : circ_buf_resize alloc (some c) bytes = .ret 0 (some c2)) :
    c2.size = bytes ∧ c2.tail = 0 ∧ c2.external = c.external
      ∧ c2.head = min (c.head - c.tail) bytes ∧ c2.base.length = bytes
      ∧ circ_contents c2 = (circ_contents c).drop (c.head - c.tail - bytes) := by
  obtain ⟨hc1, hc2w, hc3⟩ := hwf
  by_cases hx : c.external = true
  · simp only [circ_buf_resize] at h
    rw [if_pos hx] at h
    simp [EINVAL] at h
  · have hx' : c.external = false := by revert hx; cases c.external <;> simp
    cases alloc with
    | none =>
      simp only [circ_buf_resize] at h
      rw [if_neg hx] at h
      simp [ENOMEM] at h
    | some tmp =>
      have ht : tmp.length = bytes := halloc tmp rfl
      by_cases hsz : c.size = 0
      · rw [resize_ub_of_size_zero c tmp bytes hx' (by omega) hsz] at h
        simp at h
      · obtain ⟨c2', heq, hp1, hp2, hp3, hp4, hp5, hp6⟩ :=
          resize_spec c tmp bytes ⟨hc1, hc2w, hc3⟩ hx' (Nat.pos_of_ne_zero hsz) ht
        rw [heq] at h
        injection h with hv ho
        injection ho with hcc
        subst hcc
        exact ⟨hp1, hp2, hp3, hp4, hp5, hp6⟩

lemma wf_init_inv (base : Option (List Nat)) (bytes : Nat) (alloc : Option (List Nat))
    (c : circ_buf_s)
    (hbase : ∀ bl, base = some bl → bl.length = bytes)
    (halloc : ∀ a, alloc = some a → a.length = bytes)
    (h : circ_buf_init false base bytes alloc = .ret 0 (some c)) : circWF c := by
  cases base with
  | some bl =>
    have hbl := hbase bl rfl
    simp only [circ_buf_init] at h
    by_cases hb : bytes = 0
    · rw [if_neg (by decide), if_pos (by simp [hb])] at h
      simp [EINVAL] at h
    · rw [if_neg (by decide), if_neg (by simp [hb])] at h
      injection h with hv ho
      injection ho with hcc
      subst hcc
      exact ⟨le_refl 0, by show 0 - 0 ≤ bytes; omega, hbl⟩
  | none =>
    simp only [circ_buf_init] at h
    rw [if_neg (by decide), if_neg (by simp)] at h
    by_cases hb : bytes = 0
    · rw [if_neg (by simp [hb])] at h
      injection h with hv ho
      injection ho with hcc
      subst hcc
      exact ⟨le_refl 0, by show 0 - 0 ≤ bytes; omega, by show ([] : List Nat).length = bytes; simp [hb]⟩
    · rw [if_pos (by simp [hb])] at h
      cases alloc with
      | none => simp [ENOMEM] at h
      | some a =>
        injection h with hv ho
        injection ho with hcc
        subst hcc
        exact ⟨le_refl 0, by show 0 - 0 ≤ bytes; omega, halloc a rfl⟩

lemma wf_peek_inv (c c2 : circ_buf_s) (dst : Option (List Nat)) (bytes : Nat) (r : Int)
    (dst' : Option (List Nat)) (hwf : circWF c)
    (h : circ_buf_peek (some c) dst bytes = .ret r (some c2, dst')) : circWF c2 := by
  by_cases h0 : c.size = 0
  · simp [circ_buf_peek, h0] at h
  · simp only [circ_buf_peek] at h
    rw [if_neg h0] at h
    injection h with hv ho
    injection ho with h1 h2
    injection h1 with hcc
    exact hcc ▸ hwf

lemma wf_read_inv (c c2 : circ_buf_s) (d : List Nat) (bytes : Nat) (r : Int)
    (dst' : Option (List Nat)) (hwf : circWF c)
    (h : circ_buf_read (some c) (some d) bytes = .ret r (some c2, dst')) : circWF c2 := by
  obtain ⟨hc1, hc2w, hc3⟩ := hwf
  by_cases h0 : c.size = 0
  · simp [circ_buf_read, circ_buf_peek, h0] at h
  · rw [read_spec c d bytes ⟨hc1, hc2w, hc3⟩ (Nat.pos_of_ne_zero h0)] at h
    injection h with hv ho
    injection ho with h1 h2
    injection h1 with hcc
    subst hcc
    refine ⟨?_, ?_, hc3⟩
    · show c.tail + min bytes (c.head - c.tail) ≤ c.head
      omega
    · show c.head - (c.tail + min bytes (c.head - c.tail)) ≤ c.size
      omega

lemma wf_skip_inv (c c2 : circ_buf_s) (bytes : Nat) (r : Int) (hwf : circWF c)
    (h : circ_buf_skip (some c) bytes = .ret r (some c2)) : circWF c2 := by
  obtain ⟨hc1, hc2w, hc3⟩ := hwf
  rw [skip_spec] at h
  injection h with hv ho
  injection ho with hcc
  subst hcc
  refine ⟨?_, ?_, hc3⟩
  · show c.tail + min bytes (c.head - c.tail) ≤ c.head
    omega
  · show c.head - (c.tail + min bytes (c.head - c.tail)) ≤ c.size
    omega

lemma wf_write_inv (c c2 : circ_buf_s) (s : List Nat) (bytes : Nat) (r : Int)
    (hwf : circWF c) (h : circ_buf_write (some c) (some s) bytes = .ret r (some c2)) :
    circWF c2 := by
  obtain ⟨hc1, hc2w, hc3⟩ := hwf
  have hsp : circ_buf_space (some c) = c.size - (c.head - c.tail) := rfl
  by_cases h0 : c.size = 0
  · simp [circ_buf_write, h0] at h
  · simp only [circ_buf_write] at h
    rw [if_neg h0] at h
    have hinner : (listWrite c.base (c.head % c.size)
        (s.take (min (min bytes (circ_buf_space (some c)))
          (c.size - c.head % c.size)))).length = c.size := by
      rw [listWrite_length _ _ _ (by
        simp [List.length_take, hc3]
        have := Nat.mod_lt c.head (Nat.pos_of_ne_zero h0)
        omega)]
      exact hc3
    injection h with hv ho
    injection ho with hcc
    subst hcc
    refine ⟨?_, ?_, ?_⟩
    · show c.tail ≤ c.head + min bytes (circ_buf_space (some c))
      omega
    · show c.head + min bytes (circ_buf_space (some c)) - c.tail ≤ c.size
      omega
    · show (listWrite (listWrite c.base (c.head % c.size) _) 0 _).length = c.size
      rw [listWrite_length _ _ _ (by
        rw [hinner]
        simp [List.length_take, List.length_drop]
        omega)]
      exact hinner

lemma wf_overwrite_inv (c c2 : circ_buf_s) (s : List Nat) (bytes : Nat) (r : Int)
    (hwf : circWF c)
    (h : circ_buf_overwrite (some c) (some s) bytes = .ret r (some c2)) :
    circWF c2 := by
  obtain ⟨hc1, hc2w, hc3⟩ := hwf
  have hsp : circ_buf_space (some c) = c.size - (c.head - c.tail) := rfl
  by_cases h0 : c.size = 0
  · simp [circ_buf_overwrite, h0] at h
  · simp only [circ_buf_overwrite] at h
    rw [if_neg h0] at h
    have hinner : (listWrite c.base (c.head % c.size)
        ((if bytes > c.size then s.drop (bytes - c.size) else s).take
          (min (min bytes c.size) (c.size - c.head % c.size)))).length = c.size := by
      rw [listWrite_length _ _ _ (by
        simp [List.length_take, hc3]
        have := Nat.mod_lt c.head (Nat.pos_of_ne_zero h0)
        omega)]
      exact hc3
    injection h with hv ho
    injection ho with hcc
    subst hcc
    refine ⟨?_, ?_, ?_⟩
    · show c.tail + (min bytes c.size - circ_buf_space (some c))
        ≤ c.head + min bytes c.size
      omega
    · show c.head + min bytes c.size
        - (c.tail + (min bytes c.size - circ_buf_space (some c))) ≤ c.size
      omega
    · show (listWrite (listWrite c.base (c.head % c.size) _) 0 _).length = c.size
      rw [listWrite_length _ _ _ (by
        rw [hinner]
        simp [List.length_take, List.length_drop]
        try omega)]
      exact hinner

lemma wf_reset_inv (c c2 : circ_buf_s) (hwf : circWF c)
    (h : circ_buf_reset (some c) = some c2) : circWF c2 := by
  simp only [circ_buf_reset, Option.map_some'] at h
  injection h with hcc
  subst hcc
  exact ⟨le_refl 0, by show 0 - 0 ≤ c.size; omega, hwf.2.2⟩

/-- Every state reachable through the public interface satisfies the
structural invariant. -/
lemma reachable_wf (c : circ_buf_s) (h : Reachable c) : circWF c := by
  induction h with
  | init base bytes alloc c hbase halloc heq =>
    exact wf_init_inv base bytes alloc c hbase halloc heq
  | peek c dst bytes r c2 dst' hr heq ih =>
    exact wf_peek_inv c c2 dst bytes r dst' ih heq
  | read c dst bytes r c2 dst' hr heq ih =>
    exact wf_read_inv c c2 dst bytes r dst' ih heq
  | skip c bytes r c2 hr heq ih =>
    exact wf_skip_inv c c2 bytes r ih heq
  | write c src bytes r c2 hr heq ih =>
    exact wf_write_inv c c2 src bytes r ih heq
  | overwrite c src bytes r c2 hr heq ih =>
    exact wf_overwrite_inv c c2 src bytes r ih heq
  | reset c c2 hr heq ih =>
    exact wf_reset_inv c c2 ih heq
  | resize c alloc bytes c2 hr halloc heq ih =>
    obtain ⟨hsz, htl, hext, hhd, hlen, hcont⟩ :=
      resize_success_inv c c2 alloc bytes ih halloc heq
    exact ⟨by omega, by omega, by rw [hlen, hsz]⟩

lemma iob_chain_total_eq (l : List iob_s) (t : Nat) :
    iob_chain_total l t = t + (l.map iob_s.io_len).sum := by
  induction l generalizing t with
  | nil => simp [iob_chain_total]
  | cons x xs ih =>
    simp [iob_chain_total, ih]
    omega

lemma iob_queue_total_eq (l : List iob_qentry_s) (t : Nat) :
    iob_queue_total l t
      = t + (l.map fun e => (e.qe_head.map iob_s.io_len).sum).sum := by
  induction l generalizing t with
  | nil => simp [iob_queue_total]
  | cons q qs ih =>
    simp [iob_queue_total, ih, iob_chain_total_eq]
    omega

/-- The zero-capacity buffer produced by `circ_buf_init(circ, NULL, 0)`. -/
def zeroCirc : circ_buf_s :=
  { base := [], size := 0, head := 0, tail := 0, external := false }

/-- C1: every state reachable from a successful initialize by any sequence
of peek, read, skip, write, overwrite, reset and successful resize has
`tail ≤ head`, occupancy `head - tail` at most capacity, and
`circ_buf_used + circ_buf_space = circ_buf_size`. -/
theorem circ_C1_reachable_invariant (c : circ_buf_s) (h : Reachable c) :
    c.tail ≤ c.head ∧ c.head - c.tail ≤ c.size
      ∧ circ_buf_used (some c) + circ_buf_space (some c) = circ_buf_size (some c) := by
  obtain ⟨h1, h2, h3⟩ := reachable_wf c h
  refine ⟨h1, h2, ?_⟩
  show (c.head - c.tail) + (c.size - (c.head - c.tail)) = c.size
  omega

/-- Witness for C1 at the state reached by `circ_buf_init(circ, NULL, 0)`. -/
theorem circ_C1_reachable_invariant_witness :
    Reachable zeroCirc
      ∧ (zeroCirc.tail ≤ zeroCirc.head ∧ zeroCirc.head - zeroCirc.tail ≤ zeroCirc.size
          ∧ circ_buf_used (some zeroCirc) + circ_buf_space (some zeroCirc)
              = circ_buf_size (some zeroCirc)) :=
  have hr : Reachable zeroCirc :=
    Reachable.init none 0 none zeroCirc (fun bl h => Option.noConfusion h)
      (fun a h => Option.noConfusion h) rfl
  ⟨hr, circ_C1_reachable_invariant zeroCirc hr⟩

/-- C2 counterexample: on the empty one-byte buffer, writing the two-byte
source `[7, 8]` returns 1, not `len(x) = 2`: the claim's unconditional
round trip fails whenever `len(x)` exceeds the capacity. -/
theorem circ_C2_roundtrip_counterexample :
    circ_buf_write (some ⟨[0], 1, 0, 0, false⟩) (some [7, 8]) 2
        = .ret 1 (some ⟨[7], 1, 1, 0, false⟩)
      ∧ (1 : Int) ≠ (2 : Int) := ⟨rfl, by decide⟩

/-- C2 (amended): on an empty buffer of nonzero capacity, for a source `x`
with `len(x) ≤ capacity`, write followed by read into `y` with
`len(y) ≥ len(x)` returns `len(x)` from both calls and the destination
holds `x` in its first `len(x)` bytes. -/
theorem circ_C2_roundtrip_amended (c : circ_buf_s) (x y : List Nat)
    (hwf : circWF c) (h0 : 0 < c.size) (hempty : circ_buf_used (some c) = 0)
    (hx : x.length ≤ c.size) (hy : x.length ≤ y.length) :
    ∃ c2 c3, circ_buf_write (some c) (some x) x.length
        = .ret (x.length : Int) (some c2)
      ∧ circ_buf_read (some c2) (some y) y.length
          = .ret (x.length : Int) (some c3, some (x ++ y.drop x.length)) := by
  obtain ⟨hc1, hc2w, hc3⟩ := hwf
  have hu : c.head - c.tail = 0 := hempty
  have hsp : circ_buf_space (some c) = c.size := by
    show c.size - (c.head - c.tail) = c.size
    omega
  obtain ⟨c2, heq, hsz, htl, hext, hhd, hlen, hcont⟩ :=
    write_spec c x x.length ⟨hc1, hc2w, hc3⟩ h0 (le_refl _)
  have hmin : min x.length (circ_buf_space (some c)) = x.length := by
    rw [hsp]
    exact Nat.min_eq_left hx
  rw [hmin] at heq hhd hcont
  rw [contents_of_empty c hu, List.nil_append, List.take_length] at hcont
  have hwf2 : circWF c2 := by
    refine ⟨?_, ?_, ?_⟩
    · rw [htl, hhd]
      omega
    · rw [hhd, htl, hsz]
      omega
    · rw [hlen, hsz]
  have h02 : 0 < c2.size := by
    rw [hsz]
    exact h0
  have hu2 : c2.head - c2.tail = x.length := by
    rw [hhd, htl]
    omega
  have hmin2 : min y.length (c2.head - c2.tail) = x.length := by
    rw [hu2]
    omega
  refine ⟨c2, { c2 with tail := c2.tail + min y.length (c2.head - c2.tail) }, heq, ?_⟩
  rw [read_spec c2 y y.length hwf2 h02, hmin2, hcont,
    List.take_of_length_le hy]

/-- Witness for C2 (amended): empty capacity-3 buffer, x = [1,2],
y = [9,9,9]. -/
theorem circ_C2_roundtrip_amended_witness :
    circWF ⟨[0, 0, 0], 3, 0, 0, false⟩ ∧ 0 < (3 : Nat)
      ∧ circ_buf_used (some ⟨[0, 0, 0], 3, 0, 0, false⟩) = 0
      ∧ ([1, 2] : List Nat).length ≤ 3
      ∧ ([1, 2] : List Nat).length ≤ ([9, 9, 9] : List Nat).length
      ∧ ∃ c2 c3, circ_buf_write (some ⟨[0, 0, 0], 3, 0, 0, false⟩) (some [1, 2])
            ([1, 2] : List Nat).length
            = .ret (([1, 2] : List Nat).length : Int) (some c2)
        ∧ circ_buf_read (some c2) (some [9, 9, 9]) ([9, 9, 9] : List Nat).length
            = .ret (([1, 2] : List Nat).length : Int)
                (some c3, some ([1, 2] ++ [9, 9, 9].drop ([1, 2] : List Nat).length)) :=
  ⟨by decide, by decide, by decide, by decide, by decide,
   circ_C2_roundtrip_amended ⟨[0, 0, 0], 3, 0, 0, false⟩ [1, 2] [9, 9, 9]
     (by decide) (by decide) (by decide) (by decide) (by decide)⟩

/-- C3 counterexample: the zero-capacity buffer is a valid initialized
buffer, yet write on it reaches `head % 0` (undefined behavior) instead of
returning `min(byte_count, free_space()) = 0`. -/
theorem circ_C3_write_counterexample :
    circ_buf_write (some zeroCirc) (some [5]) 1 = CircRet.ub
      ∧ CircRet.ub
          ≠ CircRet.ret ((min 1 (circ_buf_space (some zeroCirc)) : Nat) : Int)
              (some zeroCirc) := ⟨rfl, by decide⟩

/-- C3 (amended): for every well-formed buffer of nonzero capacity and
source of at least `byte_count` bytes, write copies exactly
`min(byte_count, free_space())` leading source bytes after the resident
bytes, advances the write cursor by that count, returns it, leaves the
read cursor and resident bytes unchanged, and in particular returns
exactly `free_space()` when `free_space() < byte_count`. -/
theorem circ_C3_write_spec_amended (c : circ_buf_s) (s : List Nat) (bytes : Nat)
    (hwf : circWF c) (h0 : 0 < c.size) (hbs : bytes ≤ s.length) :
    ∃ c2, circ_buf_write (some c) (some s) bytes
        = .ret ((min bytes (circ_buf_space (some c)) : Nat) : Int) (some c2)
      ∧ c2.head = c.head + min bytes (circ_buf_space (some c))
      ∧ c2.tail = c.tail ∧ c2.size = c.size
      ∧ circ_contents c2
          = circ_contents c ++ s.take (min bytes (circ_buf_space (some c)))
      ∧ (circ_buf_space (some c) < bytes
          → min bytes (circ_buf_space (some c)) = circ_buf_space (some c)) := by
  obtain ⟨c2, heq, hsz, htl, hext, hhd, hlen, hcont⟩ := write_spec c s bytes hwf h0 hbs
  exact ⟨c2, heq, hhd, htl, hsz, hcont, fun h => Nat.min_eq_right (le_of_lt h)⟩

/-- Witness for C3 (amended): capacity 4 holding "AB", writing "CDE"
stores only "CD" (free space 2) and returns 2. -/
theorem circ_C3_write_spec_amended_witness :
    circWF ⟨[65, 66, 0, 0], 4, 2, 0, false⟩ ∧ 0 < (4 : Nat)
      ∧ (3 : Nat) ≤ ([67, 68, 69] : List Nat).length
      ∧ ∃ c2, circ_buf_write (some ⟨[65, 66, 0, 0], 4, 2, 0, false⟩) (some [67, 68, 69]) 3
          = .ret ((min 3 (circ_buf_space (some ⟨[65, 66, 0, 0], 4, 2, 0, false⟩)) : Nat) : Int)
              (some c2)
        ∧ c2.head = 2 + min 3 (circ_buf_space (some ⟨[65, 66, 0, 0], 4, 2, 0, false⟩))
        ∧ c2.tail = 0 ∧ c2.size = 4
        ∧ circ_contents c2
            = circ_contents ⟨[65, 66, 0, 0], 4, 2, 0, false⟩
                ++ [67, 68, 69].take (min 3 (circ_buf_space (some ⟨[65, 66, 0, 0], 4, 2, 0, false⟩)))
        ∧ (circ_buf_space (some ⟨[65, 66, 0, 0], 4, 2, 0, false⟩) < 3
            → min 3 (circ_buf_space (some ⟨[65, 66, 0, 0], 4, 2, 0, false⟩))
                = circ_buf_space (some ⟨[65, 66, 0, 0], 4, 2, 0, false⟩)) :=
  ⟨by decide, by decide, by decide,
   circ_C3_write_spec_amended ⟨[65, 66, 0, 0], 4, 2, 0, false⟩ [67, 68, 69] 3
     (by decide) (by decide) (by decide)⟩

/-- C4 counterexample: on the zero-capacity buffer, overwrite reaches
`head % 0` (undefined behavior) instead of returning the eviction count. -/
theorem circ_C4_overwrite_counterexample :
    circ_buf_overwrite (some zeroCirc) (some [5]) 1 = CircRet.ub
      ∧ CircRet.ub
          ≠ CircRet.ret ((min 1 zeroCirc.size - circ_buf_space (some zeroCirc) : Nat) : Int)
              (some zeroCirc) := ⟨rfl, by decide⟩

/-- C4 (amended): for every well-formed buffer of nonzero capacity and
source of exactly `byte_count` bytes, overwrite truncates the source to
its newest `min(byte_count, capacity)` bytes first, then evicts
`min(byte_count, capacity) - free_space()` oldest bytes by advancing the
read cursor, copies the truncated source after the survivors, advances
the write cursor by the truncated count, and returns the eviction count. -/
theorem circ_C4_overwrite_spec_amended (c : circ_buf_s) (s : List Nat) (bytes : Nat)
    (hwf : circWF c) (h0 : 0 < c.size) (hs : s.length = bytes) :
    ∃ c2, circ_buf_overwrite (some c) (some s) bytes
        = .ret ((min bytes c.size - circ_buf_space (some c) : Nat) : Int) (some c2)
      ∧ c2.head = c.head + min bytes c.size
      ∧ c2.tail = c.tail + (min bytes c.size - circ_buf_space (some c))
      ∧ c2.size = c.size
      ∧ circ_contents c2
          = (circ_contents c).drop (min bytes c.size - circ_buf_space (some c))
              ++ (if bytes > c.size then s.drop (bytes - c.size) else s) := by
  obtain ⟨c2, heq, hsz, hext, hhd, htl, hlen, hcont⟩ :=
    overwrite_spec c s bytes hwf h0 hs
  exact ⟨c2, heq, hhd, htl, hsz, hcont⟩

/-- Witness for C4 (amended): the spec scenario — full buffer "ABCD" of
capacity 4, overwrite "EF" evicts 2 and leaves "CDEF" readable. -/
theorem circ_C4_overwrite_spec_amended_witness :
    circWF ⟨[65, 66, 67, 68], 4, 4, 0, false⟩ ∧ 0 < (4 : Nat)
      ∧ ([69, 70] : List Nat).length = 2
      ∧ ∃ c2, circ_buf_overwrite (some ⟨[65, 66, 67, 68], 4, 4, 0, false⟩) (some [69, 70]) 2
          = .ret ((min 2 (4 : Nat) - circ_buf_space (some ⟨[65, 66, 67, 68], 4, 4, 0, false⟩) : Nat) : Int)
              (some c2)
        ∧ c2.head = 4 + min 2 (4 : Nat)
        ∧ c2.tail = 0 + (min 2 (4 : Nat) - circ_buf_space (some ⟨[65, 66, 67, 68], 4, 4, 0, false⟩))
        ∧ c2.size = 4
        ∧ circ_contents c2
            = (circ_contents ⟨[65, 66, 67, 68], 4, 4, 0, false⟩).drop
                  (min 2 (4 : Nat) - circ_buf_space (some ⟨[65, 66, 67, 68], 4, 4, 0, false⟩))
                ++ (if 2 > (4 : Nat) then [69, 70].drop (2 - 4) else [69, 70]) :=
  ⟨by decide, by decide, by decide,
   circ_C4_overwrite_spec_amended ⟨[65, 66, 67, 68], 4, 4, 0, false⟩ [69, 70] 2
     (by decide) (by decide) (by decide)⟩

/-- C5: a successful resize leaves the read cursor at the origin, the
write cursor at the retained length `min(occupancy, new_capacity)`, the
capacity at `new_capacity`, and exactly the newest
`min(occupancy, new_capacity)` resident bytes readable in order. -/
theorem circ_C5_resize_spec (c c2 : circ_buf_s) (alloc : Option (List Nat)) (bytes : Nat)
    (hwf : circWF c) (halloc : ∀ t, alloc = some t → t.length = bytes)
    (hsucc : circ_buf_resize alloc (some c) bytes = .ret 0 (some c2)) :
    c2.tail = 0 ∧ c2.head = min (circ_buf_used (some c)) bytes ∧ c2.size = bytes
      ∧ circ_contents c2 = (circ_contents c).drop (circ_buf_used (some c) - bytes) := by
  obtain ⟨hsz, htl, hext, hhd, hlen, hcont⟩ :=
    resize_success_inv c c2 alloc bytes hwf halloc hsucc
  exact ⟨htl, hhd, hsz, hcont⟩

/-- Witness for C5: the spec example — capacity 8 holding "ABCDEF",
resize to 4 keeps "CDEF" with occupancy 4. -/
theorem circ_C5_resize_spec_witness :
    circWF ⟨[65, 66, 67, 68, 69, 70, 0, 0], 8, 6, 0, false⟩
      ∧ (∀ t, (some [0, 0, 0, 0] : Option (List Nat)) = some t → t.length = 4)
      ∧ ((⟨[67, 68, 69, 70], 4, 4, 0, false⟩ : circ_buf_s).tail = 0
          ∧ (⟨[67, 68, 69, 70], 4, 4, 0, false⟩ : circ_buf_s).head
              = min (circ_buf_used (some ⟨[65, 66, 67, 68, 69, 70, 0, 0], 8, 6, 0, false⟩)) 4
          ∧ (⟨[67, 68, 69, 70], 4, 4, 0, false⟩ : circ_buf_s).size = 4
          ∧ circ_contents ⟨[67, 68, 69, 70], 4, 4, 0, false⟩
              = (circ_contents ⟨[65, 66, 67, 68, 69, 70, 0, 0], 8, 6, 0, false⟩).drop
                  (circ_buf_used (some ⟨[65, 66, 67, 68, 69, 70, 0, 0], 8, 6, 0, false⟩) - 4)) :=
  ⟨by decide, fun t h => by injection h with h1; exact h1 ▸ rfl,
   circ_C5_resize_spec ⟨[65, 66, 67, 68, 69, 70, 0, 0], 8, 6, 0, false⟩
     ⟨[67, 68, 69, 70], 4, 4, 0, false⟩ (some [0, 0, 0, 0]) 4 (by decide)
     (fun t h => by injection h with h1; exact h1 ▸ rfl) (by decide)⟩

/-- C6: resize fails with `-EINVAL` on a borrowed buffer and with
`-ENOMEM` on allocation failure, and in both cases returns the buffer
with every field exactly as it was. -/
theorem circ_C6_resize_errors (c : circ_buf_s) (alloc : Option (List Nat)) (bytes : Nat) :
    (c.external = true → circ_buf_resize alloc (some c) bytes = .ret (-EINVAL) (some c))
      ∧ (c.external = false
          → circ_buf_resize none (some c) bytes = .ret (-ENOMEM) (some c)) := by
  constructor
  · intro hx
    simp only [circ_buf_resize]
    rw [if_pos hx]
  · intro hx
    simp only [circ_buf_resize]
    rw [if_neg (by rw [hx]; exact Bool.false_ne_true)]

/-- Witness for C6 at concrete borrowed and owned buffers. -/
theorem circ_C6_resize_errors_witness :
    circ_buf_resize (some [9, 9]) (some ⟨[0], 1, 0, 0, true⟩) 2
        = .ret (-EINVAL) (some ⟨[0], 1, 0, 0, true⟩)
      ∧ circ_buf_resize none (some ⟨[0], 1, 0, 0, false⟩) 2
          = .ret (-ENOMEM) (some ⟨[0], 1, 0, 0, false⟩) :=
  ⟨(circ_C6_resize_errors ⟨[0], 1, 0, 0, true⟩ (some [9, 9]) 2).1 rfl,
   (circ_C6_resize_errors ⟨[0], 1, 0, 0, false⟩ none 2).2 rfl⟩

/-- C7 counterexample: on a NULL handle `circ_buf_is_empty` returns true
(`!circ_buf_used(NULL) = !0`), not false as the claim states. -/
theorem circ_C7_queries_null_counterexample :
    circ_buf_is_empty none = true ∧ true ≠ false := ⟨rfl, by decide⟩

/-- C7 (amended): the five queries are pure functions; on a NULL handle
the numeric queries return 0 while `is_empty` and `is_full` return true
(a NULL buffer has zero occupancy and zero free space). -/
theorem circ_C7_queries_null_amended :
    circ_buf_size none = 0 ∧ circ_buf_used none = 0 ∧ circ_buf_space none = 0
      ∧ circ_buf_is_empty none = true ∧ circ_buf_is_full none = true :=
  ⟨rfl, rfl, rfl, rfl, rfl⟩

/-- C8 counterexample: on the zero-capacity buffer, peek reaches
`tail % 0` (undefined behavior) instead of returning
`min(max_bytes, occupancy)`. -/
theorem circ_C8_peek_counterexample :
    circ_buf_peek (some zeroCirc) (some [9]) 1 = CircRet.ub
      ∧ CircRet.ub
          ≠ CircRet.ret ((min 1 (circ_buf_used (some zeroCirc)) : Nat) : Int)
              (some zeroCirc,
               some ((circ_contents zeroCirc).take 1
                 ++ ([9] : List Nat).drop (min 1 (circ_buf_used (some zeroCirc))))) :=
  ⟨rfl, by decide⟩

/-- C8 (amended): on a well-formed buffer of nonzero capacity, peek
returns `min(max_bytes, occupancy)`, copies that prefix of the resident
bytes into the destination, returns the buffer state unchanged, does not
reject a NULL destination, and returns `-EINVAL` exactly on a NULL
handle. -/
theorem circ_C8_peek_spec_amended (c : circ_buf_s) (dst : Option (List Nat)) (bytes : Nat)
    (hwf : circWF c) (h0 : 0 < c.size) :
    circ_buf_peek (some c) dst bytes
        = .ret ((min bytes (circ_buf_used (some c)) : Nat) : Int)
            (some c, dst.map fun d =>
              (circ_contents c).take bytes
                ++ d.drop (min bytes (circ_buf_used (some c))))
      ∧ circ_buf_peek none dst bytes = .ret (-EINVAL) (none, dst)
      ∧ ((min bytes (circ_buf_used (some c)) : Nat) : Int) ≠ -EINVAL := by
  obtain ⟨hc1, hc2w, hc3⟩ := hwf
  refine ⟨?_, rfl, by simp only [EINVAL]; omega⟩
  simp only [circ_buf_peek]
  rw [if_neg (by omega)]
  simp only [peekData_eq_take_contents c bytes hc3 h0 hc2w]
  rfl

/-- Witness for C8 (amended) on a buffer holding "AB" with capacity 4. -/
theorem circ_C8_peek_spec_amended_witness :
    circWF ⟨[65, 66, 0, 0], 4, 2, 0, false⟩ ∧ 0 < (4 : Nat)
      ∧ (circ_buf_peek (some ⟨[65, 66, 0, 0], 4, 2, 0, false⟩) (some [9, 9, 9]) 5
          = .ret ((min 5 (circ_buf_used (some ⟨[65, 66, 0, 0], 4, 2, 0, false⟩)) : Nat) : Int)
              (some ⟨[65, 66, 0, 0], 4, 2, 0, false⟩,
               (some [9, 9, 9]).map fun d =>
                 (circ_contents ⟨[65, 66, 0, 0], 4, 2, 0, false⟩).take 5
                   ++ d.drop (min 5 (circ_buf_used (some ⟨[65, 66, 0, 0], 4, 2, 0, false⟩))))
        ∧ circ_buf_peek none (some [9, 9, 9]) 5 = .ret (-EINVAL) (none, some [9, 9, 9])
        ∧ ((min 5 (circ_buf_used (some ⟨[65, 66, 0, 0], 4, 2, 0, false⟩)) : Nat) : Int)
            ≠ -EINVAL) :=
  ⟨by decide, by decide,
   circ_C8_peek_spec_amended ⟨[65, 66, 0, 0], 4, 2, 0, false⟩ (some [9, 9, 9]) 5
     (by decide) (by decide)⟩

/-- C9: the aggregate queue-size query returns the sum of every segment
length over every chain of every queue entry, and returns zero when the
queue head is null (empty entry list). -/
theorem iob_C9_queue_size_spec (q : iob_queue_s) :
    iob_get_queue_size q
        = (q.qh_head.map fun e => (e.qe_head.map iob_s.io_len).sum).sum
      ∧ (q.qh_head = [] → iob_get_queue_size q = 0) := by
  constructor
  · rw [iob_get_queue_size, iob_queue_total_eq]
    simp
  · intro h
    rw [iob_get_queue_size, h]
    rfl

/-- Witness for C9 on a queue of two chains with lengths 3+4 and 5. -/
theorem iob_C9_queue_size_spec_witness :
    iob_get_queue_size ⟨[⟨[⟨3⟩, ⟨4⟩]⟩, ⟨[⟨5⟩]⟩]⟩
        = ((⟨[⟨[⟨3⟩, ⟨4⟩]⟩, ⟨[⟨5⟩]⟩]⟩ : iob_queue_s).qh_head.map
            fun e => (e.qe_head.map iob_s.io_len).sum).sum
      ∧ ((⟨[⟨[⟨3⟩, ⟨4⟩]⟩, ⟨[⟨5⟩]⟩]⟩ : iob_queue_s).qh_head = []
          → iob_get_queue_size ⟨[⟨[⟨3⟩, ⟨4⟩]⟩, ⟨[⟨5⟩]⟩]⟩ = 0) :=
  iob_C9_queue_size_spec ⟨[⟨[⟨3⟩, ⟨4⟩]⟩, ⟨[⟨5⟩]⟩]⟩

/-- C10: initialize with no borrowed block and zero capacity succeeds
(returns 0) with a capacity-0, storage-less buffer, and on that buffer
peek, read and write all reach the unguarded `cursor % capacity` with
capacity 0 — undefined behavior reachable at the public interface. -/
theorem circ_C10_zero_capacity_init_ub :
    (∀ alloc, circ_buf_init false none 0 alloc = .ret 0 (some zeroCirc))
      ∧ zeroCirc.size = 0 ∧ zeroCirc.base = []
      ∧ (∀ dst bytes, circ_buf_peek (some zeroCirc) dst bytes = CircRet.ub)
      ∧ (∀ d bytes, circ_buf_read (some zeroCirc) (some d) bytes = CircRet.ub)
      ∧ (∀ s bytes, circ_buf_write (some zeroCirc) (some s) bytes = CircRet.ub) :=
  ⟨fun alloc => rfl, rfl, rfl, fun dst bytes => rfl, fun d bytes => rfl,
   fun s bytes => rfl⟩
